import Mathlib

/-!
Verification development for the mdx-editor notes application.

The development shallowly embeds the editor-to-document synchronization and
persistence pipeline:

* the persistence coordinator of src/src/hooks/useNotes.ts (debounced saves,
  optimistic updates, crash-recovery draft, note switching, create/delete);
* the slash-command trigger detector and executor of
  src/src/components/NotionEditor.tsx;
* the link operation of the bubble menu of NotionEditor.tsx;
* a Document Model Adapter (Markdown load/serialize), modelled from the spec
  because the serializer itself lives in the external tiptap-markdown package.

Timeouts are modelled by explicit timer records carrying their due time; the
event-driven, single-threaded execution model is a list of events folded over
the state, where network completions and timer firings are separate events
whose preconditions (timer armed and due, write in flight) are checked by the
step function itself.
-/

/-- Row of the notes table (supabase/migrations and Note type): id, title,
content, created and updated timestamps.  Timestamps are Nat instants. -/
structure Note where
  id : String
  title : String
  content : String
  created_at : Nat
  updated_at : Nat
deriving DecidableEq

/-- Save status enumeration of useNotes.ts: saved or saving or idle. -/
inductive SaveStatus where
  | idle
  | saving
  | saved
deriving DecidableEq

/-- An armed debounce timeout (saveTimeoutRef): the callback closure captures
the note id and the content as of the edit, and fires 1000ms after arming. -/
structure DebounceTimer where
  noteId : String
  content : String
  fireAt : Nat
deriving DecidableEq

/-- Crash-recovery draft stored in localStorage under LOCAL_DRAFT_KEY:
noteId, content and timestamp, a single slot. -/
structure Draft where
  noteId : String
  content : String
  timestamp : Nat
deriving DecidableEq

/-- Which code path dispatched a remote write: the debounced save callback of
updateNoteContent, or the flush issued by switchNote. -/
inductive WriteKind where
  | debounced
  | flush
deriving DecidableEq

/-- A dispatched remote content update: kind, target note id, full content
snapshot, dispatch time. -/
structure RemoteWrite where
  kind : WriteKind
  noteId : String
  content : String
  sentAt : Nat
deriving DecidableEq

/-- State of the useNotes hook together with its environment: the in-memory
notes collection, the active note id (state and ref are kept in sync by an
effect, so they are one field), the save status, whether saveTimeoutRef.current
is non-null, the armed-and-not-yet-fired debounce timer, the localStorage
draft slot, the pending 2000ms status-revert timeouts, the writes in flight,
the remote store rows, and an append-only log of every dispatched write. -/
structure NotesState where
  notes : List Note
  activeNoteId : Option String
  saveStatus : SaveStatus
  timeoutSet : Bool
  armed : Option DebounceTimer
  draft : Option Draft
  revertTimers : List Nat
  inFlight : List RemoteWrite
  remote : List Note
  log : List RemoteWrite
deriving DecidableEq

/-- updateNoteContent of useNotes.ts: no-op when no note is active; otherwise
optimistically update the matching note's content and updated_at, overwrite
the crash-recovery draft, clear any pending timeout and arm a fresh 1000ms
debounce timeout whose closure captures the note id and content. -/
def updateNoteContent (s : NotesState) (t : Nat) (content : String) : NotesState :=
  match s.activeNoteId with
  | none => s
  | some noteId =>
    { s with
      notes := s.notes.map fun n =>
        if n.id == noteId then { n with content := content, updated_at := t } else n,
      draft := some ⟨noteId, content, t⟩,
      armed := some ⟨noteId, content, t + 1000⟩,
      timeoutSet := true }

/-- switchNote of useNotes.ts: if saveTimeoutRef.current is set, clear the
timeout, immediately dispatch one remote write of the current note's content
(when the active note is found in the collection) and set status to idle;
in every case the selected id becomes active. -/
def switchNote (s : NotesState) (t : Nat) (id : String) : NotesState :=
  if s.timeoutSet then
    let cleared := { s with timeoutSet := false, armed := none }
    let current :=
      match s.activeNoteId with
      | some aid => s.notes.find? (fun n : Note => n.id == aid)
      | none => none
    let dispatched :=
      match current with
      | some n =>
        let w : RemoteWrite := ⟨.flush, n.id, n.content, t⟩
        { cleared with inFlight := cleared.inFlight ++ [w], log := cleared.log ++ [w] }
      | none => cleared
    { dispatched with saveStatus := .idle, activeNoteId := some id }
  else
    { s with activeNoteId := some id }

/-- Body of the debounce timeout of updateNoteContent: when the armed timer is
due, set status to saving and dispatch the remote write of the captured
content.  A timer that is not armed or not yet due does nothing. -/
def debouncedSaveFire (s : NotesState) (t : Nat) : NotesState :=
  match s.armed with
  | some d =>
    if d.fireAt ≤ t then
      let w : RemoteWrite := ⟨.debounced, d.noteId, d.content, t⟩
      { s with armed := none, saveStatus := .saving,
               inFlight := s.inFlight ++ [w], log := s.log ++ [w] }
    else s
  | none => s

/-- Effect of a successful remote update on the remote store rows: the row
with the written id takes the written content. -/
def applyWriteRemote (remote : List Note) (w : RemoteWrite) : List Note :=
  remote.map fun n => if n.id == w.noteId then { n with content := w.content } else n

/-- Completion of a dispatched write.  For the debounced save callback:
success sets status saved, removes the draft and schedules a 2000ms revert
timeout; failure only reverts status to idle.  For the switchNote flush the
then-callback removes the draft on completion regardless of the error field,
since the query promise resolves either way. -/
def completeWrite (s : NotesState) (t : Nat) (w : RemoteWrite) (ok : Bool) : NotesState :=
  if w ∈ s.inFlight ∧ w.sentAt ≤ t then
    let s1 := { s with inFlight := s.inFlight.erase w,
                       remote := if ok then applyWriteRemote s.remote w else s.remote }
    match w.kind, ok with
    | .debounced, true =>
      { s1 with saveStatus := .saved, draft := none,
                revertTimers := s1.revertTimers ++ [t + 2000] }
    | .debounced, false => { s1 with saveStatus := .idle }
    | .flush, _ => { s1 with draft := none }
  else s

/-- Firing of one due 2000ms revert timeout: it sets the save status to idle
unconditionally (the callback is just setSaveStatus idle). -/
def fireRevert (s : NotesState) (t : Nat) : NotesState :=
  match s.revertTimers.find? fun r => r ≤ t with
  | some r => { s with revertTimers := s.revertTimers.erase r, saveStatus := .idle }
  | none => s

/-- createNote of useNotes.ts, at the point the insert resolved: on success
the returned row is prepended to the in-memory collection and becomes active. -/
def createNote (s : NotesState) (n : Note) (ok : Bool) : NotesState :=
  if ok then
    { s with notes := n :: s.notes, activeNoteId := some n.id, remote := n :: s.remote }
  else s

/-- deleteNote of useNotes.ts: on successful remote delete, the note is
filtered out of the collection; if it was active, the first remaining note
(or none) becomes active. -/
def deleteNote (s : NotesState) (id : String) (ok : Bool) : NotesState :=
  if ok then
    let remaining := s.notes.filter fun n => ¬(n.id == id)
    { s with notes := remaining,
             activeNoteId :=
               if s.activeNoteId = some id then remaining.head?.map Note.id
               else s.activeNoteId,
             remote := s.remote.filter fun n => ¬(n.id == id) }
  else s

/-- Events of the single-threaded event loop: user edits, timer firings,
network completions, note switching and lifecycle operations.  Every event
carries its occurrence time. -/
inductive Ev where
  | edit (t : Nat) (content : String)
  | fireDebounce (t : Nat)
  | complete (t : Nat) (w : RemoteWrite) (ok : Bool)
  | revert (t : Nat)
  | switch (t : Nat) (id : String)
  | create (t : Nat) (n : Note) (ok : Bool)
  | delete (t : Nat) (id : String) (ok : Bool)
deriving DecidableEq

/-- Occurrence time of an event. -/
def evTime : Ev → Nat
  | .edit t _ => t
  | .fireDebounce t => t
  | .complete t _ _ => t
  | .revert t => t
  | .switch t _ => t
  | .create t _ _ => t
  | .delete t _ _ => t

/-- One step of the event loop. -/
def step (s : NotesState) : Ev → NotesState
  | .edit t c => updateNoteContent s t c
  | .fireDebounce t => debouncedSaveFire s t
  | .complete t w ok => completeWrite s t w ok
  | .revert t => fireRevert s t
  | .switch t id => switchNote s t id
  | .create _ n ok => createNote s n ok
  | .delete _ id ok => deleteNote s id ok

/-- Run of the event loop over a list of events. -/
def run (s : NotesState) (es : List Ev) : NotesState :=
  es.foldl step s

/-- Event times along a trace are nondecreasing, starting from a lower bound. -/
def Chrono : Nat → List Ev → Prop
  | _, [] => True
  | b, e :: es => b ≤ evTime e ∧ Chrono (evTime e) es

/-- The trace es consists of the given timed edits, in order, interleaved with
any number of debounce-timer firings. -/
inductive Weave : List (Nat × String) → List Ev → Prop where
  | nil : Weave [] []
  | edit {t c ed es} : Weave ed es → Weave ((t, c) :: ed) (Ev.edit t c :: es)
  | fire {t ed es} : Weave ed es → Weave ed (Ev.fireDebounce t :: es)

/-- Each edit of the sequence arrives strictly less than 1000ms after the
previous one. -/
def Gaps : List (Nat × String) → Prop
  | (t1, _) :: (t2, c2) :: r => t2 < t1 + 1000 ∧ Gaps ((t2, c2) :: r)
  | _ => True

/-- Builds the edit event of a timed content pair. -/
def mkEdit (p : Nat × String) : Ev :=
  .edit p.1 p.2

/-- Earliest time at which the next debounced write of the pending edit
sequence may be dispatched: 1000ms after the last remaining edit, or the due
time of the armed timer when no edit remains. -/
def lastFire (ed : List (Nat × String)) (s : NotesState) : Nat :=
  match ed.getLast? with
  | some p => p.1 + 1000
  | none =>
    match s.armed with
    | some d => d.fireAt
    | none => 0

/-- Concrete note used by witnesses and counterexamples. -/
def noteA : Note := ⟨"a", "T", "", 0, 0⟩

/-- Concrete initial state: one note, active, present remotely, everything
else quiescent. -/
def base : NotesState := ⟨[noteA], some "a", .idle, false, none, none, [], [], [noteA], []⟩

/-- State after one edit at time 0 from the base state. -/
def c1s1 : NotesState := run base ([((0 : Nat), "hello")].map mkEdit)

/-- State after switching to note b at time 500. -/
def c1s2 : NotesState := switchNote c1s1 500 "b"

/-- In-flight fixture for the C3 witness: one debounced write of c1 and one
flush write of c0 pending, draft holding the newer c2. -/
def c3sF : NotesState :=
  { base with
      inFlight := [⟨.debounced, "a", "c1", 1000⟩, ⟨.flush, "a", "c0", 900⟩]
      draft := some ⟨"a", "c2", 1100⟩ }

/-- Fixture for the C6 witness: one debounced write in flight and one overdue
revert timeout. -/
def c6sW : NotesState :=
  { base with
      inFlight := [⟨.debounced, "a", "c1", 1000⟩]
      revertTimers := [900] }

/-- Second concrete note, used by the C8 witness. -/
def noteB : Note := ⟨"b", "U", "y", 1, 1⟩

/-- Two-note fixture with note a active. -/
def c8sW : NotesState :=
  { base with notes := [noteA, noteB], remote := [noteA, noteB] }

/-- State with no active note, for the C10 witness. -/
def c10sNone : NotesState := { base with activeNoteId := none }

/-- Tests whether the first character list is a leading segment of the second. -/
def leadsWith : List Char → List Char → Bool
  | [], _ => true
  | _ :: _, [] => false
  | a :: as, b :: bs => a == b && leadsWith as bs

/-- JavaScript String.includes: the needle occurs contiguously in the hay. -/
def hasSub (needle : List Char) : List Char → Bool
  | [] => needle.isEmpty
  | b :: bs => leadsWith needle (b :: bs) || hasSub needle bs

/-- Lower-cases a string into a character list (String.toLowerCase). -/
def lowerData (s : String) : List Char := s.data.map Char.toLower

/-- A slash menu entry of NotionEditor.tsx: label, description, keyword list
and the structural command it triggers (the icon is presentation only and is
not modelled). -/
structure SlashMenuItem where
  label : String
  description : String
  keywords : List String
  command : String
deriving DecidableEq

/-- SLASH_COMMANDS of NotionEditor.tsx, in declaration order. -/
def SLASH_COMMANDS : List SlashMenuItem := [
  ⟨"Text", "Plain text", ["text", "paragraph", "p"], "paragraph"⟩,
  ⟨"Heading 1", "Large heading", ["heading", "h1", "title"], "h1"⟩,
  ⟨"Heading 2", "Medium heading", ["heading", "h2", "subtitle"], "h2"⟩,
  ⟨"Heading 3", "Small heading", ["heading", "h3"], "h3"⟩,
  ⟨"Bullet List", "Unordered list", ["bullet", "list", "unordered", "ul"], "bulletList"⟩,
  ⟨"Numbered List", "Ordered list", ["numbered", "list", "ordered", "ol"], "orderedList"⟩,
  ⟨"Task List", "Checklist with checkboxes", ["task", "todo", "checklist", "checkbox"], "taskList"⟩,
  ⟨"Code Block", "Code snippet", ["code", "block", "snippet", "pre"], "codeBlock"⟩,
  ⟨"Quote", "Blockquote", ["quote", "blockquote"], "blockquote"⟩,
  ⟨"Divider", "Horizontal rule", ["divider", "hr", "line", "separator"], "horizontalRule"⟩]

/-- getFilteredCommands of NotionEditor.tsx: the whole list for an empty
query, otherwise the items whose lower-cased label contains the lower-cased
query or one of whose keywords contains it. -/
def getFilteredCommands (query : List Char) : List SlashMenuItem :=
  if query.isEmpty then SLASH_COMMANDS
  else
    let q := query.map Char.toLower
    SLASH_COMMANDS.filter fun cmd =>
      hasSub q (lowerData cmd.label) || cmd.keywords.any fun k => hasSub q k.data

/-- JavaScript word-character class used by the slash regex. -/
def isWordChar (c : Char) : Bool := c.isAlphanum || c == '_'

/-- The onUpdate regex: a slash followed by zero or more word characters,
anchored at the end of the text before the cursor.  Returns the query and
the length of the whole match including the slash. -/
def slashMatch (textBefore : List Char) : Option (List Char × Nat) :=
  let rev := textBefore.reverse
  match rev.dropWhile isWordChar with
  | '/' :: _ =>
    some ((rev.takeWhile isWordChar).reverse, (rev.takeWhile isWordChar).length + 1)
  | _ => none

/-- Transient slash menu state: query, highlighted index and replace range
(the anchor coordinates are presentation only and are not modelled). -/
structure SlashMenuState where
  query : List Char
  selectedIndex : Nat
  rangeFrom : Nat
  rangeTo : Nat
deriving DecidableEq

/-- Cursor-relevant part of the editor state seen by onUpdate: the type of
the block holding the cursor, its text, the cursor offset inside it, whether
the selection is empty, and the absolute cursor position. -/
structure EditorView where
  blockType : String
  parentText : List Char
  parentOffset : Nat
  selectionEmpty : Bool
  cursorPos : Nat
deriving DecidableEq

/-- Slash-menu part of onUpdate of NotionEditor.tsx: with a non-empty
selection the menu closes; otherwise the trailing slash-word pattern of the
text before the cursor is matched, and when it matches inside a paragraph
block the menu opens with the query, highlighted index 0 and the replace
range from the slash through the cursor; in every other case it closes. -/
def detectSlashMenu (ed : EditorView) : Option SlashMenuState :=
  if !ed.selectionEmpty then none
  else
    match slashMatch (ed.parentText.take ed.parentOffset) with
    | some (q, len) =>
      if ed.blockType = "paragraph" then
        some ⟨q, 0, ed.cursorPos - len, ed.cursorPos⟩
      else none
    | none => none

/-- Block node types reachable through the slash commands. -/
inductive NodeType where
  | paragraph
  | heading (level : Nat)
  | bulletList
  | orderedList
  | taskList
  | codeBlock
  | blockquote
  | horizontalRule
deriving DecidableEq

/-- The block holding the cursor: its node type and its text.  The block's
text content starts at document position 1. -/
structure EditorBlock where
  ntype : NodeType
  text : List Char
deriving DecidableEq

/-- deleteRange of the command chain: removes the document positions from
rangeFrom (inclusive) to rangeTo (exclusive) from the block's text, which
starts at document position 1. -/
def deleteRange (text : List Char) (rangeFrom rangeTo : Nat) : List Char :=
  text.take (rangeFrom - 1) ++ text.drop (rangeTo - 1)

/-- executeSlashCommand of NotionEditor.tsx: delete the replace range, then
apply the structural transform selected by the command tag. -/
def executeSlashCommand (b : EditorBlock) (command : String)
    (rangeFrom rangeTo : Nat) : EditorBlock :=
  let d : EditorBlock := { b with text := deleteRange b.text rangeFrom rangeTo }
  match command with
  | "paragraph" => { d with ntype := .paragraph }
  | "h1" => { d with ntype := .heading 1 }
  | "h2" => { d with ntype := .heading 2 }
  | "h3" => { d with ntype := .heading 3 }
  | "bulletList" => { d with ntype := .bulletList }
  | "orderedList" => { d with ntype := .orderedList }
  | "taskList" => { d with ntype := .taskList }
  | "codeBlock" => { d with ntype := .codeBlock }
  | "blockquote" => { d with ntype := .blockquote }
  | "horizontalRule" => { d with ntype := .horizontalRule }
  | _ => d

/-- Enter handling of the slash menu keydown listener: with an empty
candidate list, or a highlighted index out of range, nothing happens and the
menu stays; otherwise the highlighted candidate is executed and the menu
closes. -/
def handleEnterKey (menu : SlashMenuState) (b : EditorBlock) :
    Option SlashMenuState × EditorBlock :=
  let items := getFilteredCommands menu.query
  if items.length = 0 then (some menu, b)
  else
    match items[menu.selectedIndex]? with
    | some cmd => (none, executeSlashCommand b cmd.command menu.rangeFrom menu.rangeTo)
    | none => (some menu, b)

/-- Selection state seen by the bubble menu: whether the selection is
non-empty, whether it sits in a code block, the link mark on the selection if
any, and the remaining inline marks, which the link button never touches. -/
structure SelectionState where
  nonEmpty : Bool
  inCodeBlock : Bool
  linkMark : Option String
  otherMarks : List String
deriving DecidableEq

/-- shouldShow of the BubbleMenu of NotionEditor.tsx: shown only for a
non-empty selection outside code blocks. -/
def bubbleShouldShow (sel : SelectionState) : Bool :=
  !sel.inCodeBlock && sel.nonEmpty

/-- onClick of the link bubble button of NotionEditor.tsx: with an active
link mark, unset it; otherwise prompt for a URL and, when the prompt yields a
non-empty string, set a link mark with that URL; a cancelled prompt (none) or
an empty string changes nothing.  The function is total: no error is raised. -/
def linkButtonClick (sel : SelectionState) (promptResult : Option String) :
    SelectionState :=
  if sel.linkMark.isSome then
    { sel with linkMark := none }
  else
    match promptResult with
    | some url => if url = "" then sel else { sel with linkMark := some url }
    | none => sel

/-- Concrete shown selections for the C9 witness: one with a link mark, one
without. -/
def selLinked : SelectionState := ⟨true, false, some "u", ["bold"]⟩

/-- Concrete shown selection carrying no link mark. -/
def selPlain : SelectionState := ⟨true, false, none, ["bold"]⟩

/-- A line of Markdown text, as its character list. -/
abbrev Line := List Char

/-- Modelled from the spec: the Editable Tree node kinds of the Document
Model Adapter (the adapter itself lives in the external tiptap-markdown
package, absent from src/): paragraph, heading 1..3, bullet item, ordered
item with its literal numeral digits, task item, fenced code block with
language tag and body lines, blockquote line, horizontal rule.  Inline marks
stay inside the opaque text. -/
inductive Block where
  | para (text : Line)
  | heading (level : Nat) (text : Line)
  | bullet (text : Line)
  | ordered (digits : Line) (text : Line)
  | task (checked : Bool) (text : Line)
  | codeBlock (lang : Line) (body : List Line)
  | quote (text : Line)
  | rule
deriving DecidableEq

/-- The code-fence character (backtick, code point 96). -/
def fenceChar : Char := Char.ofNat 96

/-- A closing code fence: three fence characters and nothing else. -/
def fenceLine : Line := [fenceChar, fenceChar, fenceChar]

/-- Strips a leading segment: some rest exactly when the line starts with
the pattern. -/
def stripPre : Line → Line → Option Line
  | [], l => some l
  | _ :: _, [] => none
  | a :: as, b :: bs => if a = b then stripPre as bs else none

/-- ATX marker of a level-1 heading. -/
def hashSp : Line := ['#', ' ']

/-- ATX marker of a level-2 heading. -/
def hash2Sp : Line := ['#', '#', ' ']

/-- ATX marker of a level-3 heading. -/
def hash3Sp : Line := ['#', '#', '#', ' ']

/-- Marker of an unchecked task item. -/
def taskOpen : Line := ['-', ' ', '[', ' ', ']', ' ']

/-- Marker of a checked task item. -/
def taskDone : Line := ['-', ' ', '[', 'x', ']', ' ']

/-- Marker of a bullet item. -/
def dashSp : Line := ['-', ' ']

/-- Marker of a blockquote line. -/
def quoteSp : Line := ['>', ' ']

/-- A horizontal rule line. -/
def hrLine : Line := ['-', '-', '-']

/-- Separator between the numeral and the text of an ordered item. -/
def dotSp : Line := ['.', ' ']

/-- Modelled from the spec: single-line classification of the canonical
persisted format of section 6 (ATX headings, dash and numbered lists, task
items, blockquotes, rules), with unsupported lines degrading to plain
paragraphs that keep their text verbatim.  Task items are tested before
bullet items because their markers overlap. -/
def parseLine (l : Line) : Block :=
  match stripPre hashSp l with
  | some r => .heading 1 r
  | none =>
  match stripPre hash2Sp l with
  | some r => .heading 2 r
  | none =>
  match stripPre hash3Sp l with
  | some r => .heading 3 r
  | none =>
  match stripPre taskOpen l with
  | some r => .task false r
  | none =>
  match stripPre taskDone l with
  | some r => .task true r
  | none =>
  match stripPre dashSp l with
  | some r => .bullet r
  | none =>
  if l = hrLine then .rule
  else
  match stripPre quoteSp l with
  | some r => .quote r
  | none =>
  match l.takeWhile Char.isDigit, l.dropWhile Char.isDigit with
  | d :: ds, '.' :: ' ' :: r => .ordered (d :: ds) r
  | _, _ => .para l

/-- Modelled from the spec: serialization of one tree block back to canonical
Markdown lines; the inverse marker of each parseLine case, with code blocks
emitting their fence pair around the body. -/
def serializeBlock : Block → List Line
  | .para t => [t]
  | .heading lv t =>
    if lv = 2 then [hash2Sp ++ t]
    else if lv = 3 then [hash3Sp ++ t]
    else [hashSp ++ t]
  | .bullet t => [dashSp ++ t]
  | .ordered ds t => [ds ++ dotSp ++ t]
  | .task false t => [taskOpen ++ t]
  | .task true t => [taskDone ++ t]
  | .codeBlock lang body => (fenceLine ++ lang) :: body ++ [fenceLine]
  | .quote t => [quoteSp ++ t]
  | .rule => [hrLine]

/-- Collects the body of a fenced code block: the lines before the first
closing fence, and the lines after it (the whole rest when the fence is
never closed). -/
def takeToFence : List Line → List Line × List Line
  | [] => ([], [])
  | l :: ls =>
    if l = fenceLine then ([], ls)
    else
      let p := takeToFence ls
      (l :: p.1, p.2)

/-- Modelled from the spec: load of the Document Model Adapter, turning
Markdown lines into the Editable Tree: a line opening with a triple fence
starts a code block whose body runs to the first closing fence; every other
line is classified on its own. -/
def loadBlocks : List Line → List Block
  | [] => []
  | l :: ls =>
    match stripPre fenceLine l with
    | some lang =>
      Block.codeBlock lang (takeToFence ls).1 :: loadBlocks (takeToFence ls).2
    | none => parseLine l :: loadBlocks ls
termination_by ls => ls.length
decreasing_by
  · have hb : ∀ xs : List Line, (takeToFence xs).2.length ≤ xs.length := by
      intro xs
      induction xs with
      | nil => simp [takeToFence]
      | cons a as ih =>
        rw [takeToFence]
        split
        · simp
        · simpa using Nat.le_succ_of_le ih
    have := hb ls
    simp only [List.length_cons]
    omega
  · simp only [List.length_cons]
    omega

/-- Modelled from the spec: serialize of the Document Model Adapter, mapping
every block of the Editable Tree to its canonical Markdown lines. -/
def serializeBlocks (bs : List Block) : List Line :=
  (bs.map serializeBlock).flatten

/-- Running an empty trace leaves the state unchanged. -/
theorem run_nil (s : NotesState) : run s [] = s := rfl

/-- Running a cons trace steps once then runs the tail. -/
theorem run_cons (s : NotesState) (e : Ev) (es : List Ev) :
    run s (e :: es) = run (step s e) es := rfl

/-- Running an appended trace runs the two parts in sequence. -/
theorem run_append (s : NotesState) (es fs : List Ev) :
    run s (es ++ fs) = run (run s es) fs :=
  List.foldl_append ..

/-- find? over a map that rewrites exactly the rows matching an id, by an
id-preserving update, is the update of the original find?. -/
theorem find?_map_upd (l : List Note) (aid : String) (f : Note → Note)
    (hf : ∀ n, (f n).id = n.id) :
    (l.map fun n => if n.id == aid then f n else n).find? (fun n => n.id == aid)
      = (l.find? (fun n => n.id == aid)).map f := by
  induction l with
  | nil => rfl
  | cons n l ih =>
    by_cases h : (n.id == aid) = true
    · have hfn : ((f n).id == aid) = true := by rw [hf]; exact h
      simp [List.find?, h, hfn]
    · rw [Bool.not_eq_true] at h
      simp only [List.map_cons, h, Bool.false_eq_true, if_false, List.find?]
      exact ih

/-- Running a nonempty sequence of edits with an active note: the last edit
determines the armed debounce timer, the crash-recovery draft and the active
note's in-memory content; nothing is dispatched, and the remote store, save
status, revert timers, log and in-flight set are untouched. -/
theorem run_edits (edits : List (Nat × String)) :
    ∀ (tL : Nat) (cL : String), edits.getLast? = some (tL, cL) →
    ∀ (s : NotesState) (aid : String), s.activeNoteId = some aid →
      (run s (edits.map mkEdit)).activeNoteId = some aid ∧
      (run s (edits.map mkEdit)).armed = some ⟨aid, cL, tL + 1000⟩ ∧
      (run s (edits.map mkEdit)).timeoutSet = true ∧
      (run s (edits.map mkEdit)).log = s.log ∧
      (run s (edits.map mkEdit)).inFlight = s.inFlight ∧
      (run s (edits.map mkEdit)).remote = s.remote ∧
      (run s (edits.map mkEdit)).saveStatus = s.saveStatus ∧
      (run s (edits.map mkEdit)).revertTimers = s.revertTimers ∧
      (run s (edits.map mkEdit)).draft = some ⟨aid, cL, tL⟩ ∧
      (run s (edits.map mkEdit)).notes.find? (fun n => n.id == aid)
        = (s.notes.find? (fun n => n.id == aid)).map
            (fun n => { n with content := cL, updated_at := tL }) := by
  induction edits with
  | nil => intro tL cL h; simp at h
  | cons p rest ih =>
    obtain ⟨t, c⟩ := p
    intro tL cL hlast s aid hact
    cases rest with
    | nil =>
      simp only [List.getLast?_singleton, Option.some.injEq, Prod.mk.injEq] at hlast
      obtain ⟨ht, hc⟩ := hlast
      subst ht; subst hc
      have hstep : step s (mkEdit (t, c)) = { s with
          notes := s.notes.map fun n =>
            if n.id == aid then { n with content := c, updated_at := t } else n,
          draft := some ⟨aid, c, t⟩,
          armed := some ⟨aid, c, t + 1000⟩,
          timeoutSet := true } := by
        show updateNoteContent s t c = _
        rw [updateNoteContent, hact]
      simp only [List.map_cons, List.map_nil, run_cons, run_nil, hstep]
      exact ⟨hact, by trivial, by trivial, by trivial, by trivial, by trivial,
        by trivial, by trivial, by trivial,
        find?_map_upd s.notes aid _ (fun n => rfl)⟩
    | cons q ps =>
      have hlast' : (q :: ps).getLast? = some (tL, cL) := by
        rwa [List.getLast?_cons_cons] at hlast
      have hs' : updateNoteContent s t c = { s with
          notes := s.notes.map fun n =>
            if n.id == aid then { n with content := c, updated_at := t } else n,
          draft := some ⟨aid, c, t⟩,
          armed := some ⟨aid, c, t + 1000⟩,
          timeoutSet := true } := by rw [updateNoteContent, hact]
      have hact' : (updateNoteContent s t c).activeNoteId = some aid := by
        rw [hs']; exact hact
      obtain ⟨h1, h2, h3, h4, h5, h6, h7, h8, h9, h10⟩ :=
        ih tL cL hlast' (updateNoteContent s t c) aid hact'
      have hrw : run s (((t, c) :: q :: ps).map mkEdit)
          = run (updateNoteContent s t c) ((q :: ps).map mkEdit) := by
        simp only [List.map_cons, run_cons]; rfl
      rw [hrw]
      refine ⟨h1, h2, h3, ?_, ?_, ?_, ?_, ?_, h9, ?_⟩
      · rw [h4, hs']
      · rw [h5, hs']
      · rw [h6, hs']
      · rw [h7, hs']
      · rw [h8, hs']
      · rw [h10, hs']
        rw [find?_map_upd s.notes aid
          (fun n => { n with content := c, updated_at := t }) (fun n => rfl)]
        cases s.notes.find? (fun n => n.id == aid) <;> rfl

/-- Claim C1: for every sequence of edits to the active document followed by a
call to switchNote, the debounce timer pending at the switch is cancelled, one
final flush write of the outgoing document's last in-memory content is
dispatched in the same switch step that makes the newly selected document
active, and once that flush completes the outgoing document's remote content
equals its last in-memory content at the moment of the switch. -/
theorem c1_switch_flush
    (s0 : NotesState) (aid : String) (n0 : Note) (edits : List (Nat × String))
    (tL tS tC : Nat) (cL : String) (target : String) (s1 s2 : NotesState)
    (hact : s0.activeNoteId = some aid)
    (hmem : s0.notes.find? (fun n => n.id == aid) = some n0)
    (hrem : (s0.remote.find? (fun n => n.id == aid)).isSome = true)
    (hlast : edits.getLast? = some (tL, cL))
    (htc : tS ≤ tC)
    (hs1 : s1 = run s0 (edits.map mkEdit))
    (hs2 : s2 = switchNote s1 tS target) :
    s1.armed = some ⟨aid, cL, tL + 1000⟩ ∧
    (s1.notes.find? (fun n => n.id == aid)).map Note.content = some cL ∧
    s2.armed = none ∧
    s2.timeoutSet = false ∧
    s2.activeNoteId = some target ∧
    s2.log = s1.log ++ [⟨.flush, aid, cL, tS⟩] ∧
    (⟨.flush, aid, cL, tS⟩ : RemoteWrite) ∈ s2.inFlight ∧
    ((completeWrite s2 tC ⟨.flush, aid, cL, tS⟩ true).remote.find?
        (fun n => n.id == aid)).map Note.content = some cL := by
  subst hs1
  obtain ⟨e1, e2, e3, e4, e5, e6, e7, e8, e9, e10⟩ :=
    run_edits edits tL cL hlast s0 aid hact
  set s1 := run s0 (edits.map mkEdit) with hs1d
  have hn1 : s1.notes.find? (fun n => n.id == aid)
      = some { n0 with content := cL, updated_at := tL } := by
    rw [e10, hmem]; rfl
  have hid : n0.id = aid := by
    have h := List.find?_some hmem
    simpa using h
  have hsw : switchNote s1 tS target
      = { s1 with
          timeoutSet := false
          armed := none
          inFlight := s1.inFlight ++ [⟨.flush, aid, cL, tS⟩]
          log := s1.log ++ [⟨.flush, aid, cL, tS⟩]
          saveStatus := .idle
          activeNoteId := some target } := by
    rw [switchNote, if_pos e3]
    simp only [e1, hn1]
    simp [hid]
  subst hs2
  rw [hsw]
  refine ⟨e2, by rw [hn1]; rfl, rfl, rfl, rfl, rfl, by simp, ?_⟩
  have hguard : (⟨.flush, aid, cL, tS⟩ : RemoteWrite) ∈
      s1.inFlight ++ [⟨.flush, aid, cL, tS⟩] ∧
      (⟨.flush, aid, cL, tS⟩ : RemoteWrite).sentAt ≤ tC := ⟨by simp, htc⟩
  rw [completeWrite, if_pos hguard]
  show ((applyWriteRemote s1.remote ⟨.flush, aid, cL, tS⟩).find?
      (fun n => n.id == aid)).map Note.content = some cL
  rw [e6, applyWriteRemote]
  rw [find?_map_upd s0.remote aid (fun n => { n with content := cL }) (fun n => rfl)]
  obtain ⟨r, hr⟩ := Option.isSome_iff_exists.mp hrem
  rw [hr]
  rfl

/-- Witness for claim C1 at a concrete run: one edit, then a switch. -/
theorem c1_switch_flush_witness :
    base.activeNoteId = some "a" ∧
    base.notes.find? (fun n => n.id == "a") = some noteA ∧
    (base.remote.find? (fun n => n.id == "a")).isSome = true ∧
    (c1s1.armed = some ⟨"a", "hello", 1000⟩ ∧
     (c1s1.notes.find? (fun n => n.id == "a")).map Note.content = some "hello" ∧
     c1s2.armed = none ∧
     c1s2.timeoutSet = false ∧
     c1s2.activeNoteId = some "b" ∧
     c1s2.log = c1s1.log ++ [⟨.flush, "a", "hello", 500⟩] ∧
     (⟨.flush, "a", "hello", 500⟩ : RemoteWrite) ∈ c1s2.inFlight ∧
     ((completeWrite c1s2 600 ⟨.flush, "a", "hello", 500⟩ true).remote.find?
        (fun n => n.id == "a")).map Note.content = some "hello") :=
  ⟨rfl, by decide, by decide,
    c1_switch_flush base "a" noteA [(0, "hello")] 0 500 600 "hello" "b" c1s1 c1s2
      rfl (by decide) (by decide) (by decide) (by decide) rfl rfl⟩

/-- Every event of a chronological trace occurs at or after the lower bound. -/
theorem chrono_mono : ∀ {b : Nat} {es : List Ev}, Chrono b es →
    ∀ e ∈ es, b ≤ evTime e := by
  intro b es
  induction es generalizing b with
  | nil => intro _ e he; cases he
  | cons f fs ih =>
    intro h e he
    obtain ⟨h1, h2⟩ := h
    cases he with
    | head => exact h1
    | tail _ hmem => exact le_trans h1 (ih h2 e hmem)

/-- The first pending edit of a weave occurs in the trace. -/
theorem weave_first_edit : ∀ {ed : List (Nat × String)} {es : List Ev},
    Weave ed es → ∀ t c ed', ed = (t, c) :: ed' → Ev.edit t c ∈ es := by
  intro ed es h
  induction h with
  | nil => intro t c ed' h; cases h
  | edit _ ih =>
    intro t c ed' heq
    obtain ⟨h1, h2⟩ := List.cons.inj heq
    obtain ⟨ht, hc⟩ := Prod.mk.inj h1
    subst ht; subst hc
    exact List.mem_cons_self _ _
  | fire _ ih =>
    intro t c ed' heq
    exact List.mem_cons_of_mem _ (ih t c ed' heq)

/-- The tail of an edit sequence with in-window gaps has in-window gaps. -/
theorem gaps_tail {p : Nat × String} {ed : List (Nat × String)}
    (h : Gaps (p :: ed)) : Gaps ed := by
  obtain ⟨t, c⟩ := p
  cases ed with
  | nil => trivial
  | cons q r =>
    obtain ⟨qt, qc⟩ := q
    exact h.2

/-- Core debounce invariant: over any chronological weave of pending edits and
timer firings, starting from a state whose armed timer (if any) belongs to the
active note and is due only after the first pending edit, the run dispatches
at most one debounced write, never before the coalescing deadline; and it
dispatches none at all when no edit is pending and no timer is armed. -/
theorem c2aux (aid : String) :
    ∀ {ed : List (Nat × String)} {es : List Ev}, Weave ed es →
    ∀ (b : Nat) (s : NotesState), Chrono b es → Gaps ed →
      s.activeNoteId = some aid →
      (∀ d, s.armed = some d → d.noteId = aid) →
      (∀ p d, ed.head? = some p → s.armed = some d → p.1 < d.fireAt) →
      ∃ w, (run s es).log = s.log ++ w ∧
        (w = [] ∨ ∃ c tw, w = [⟨.debounced, aid, c, tw⟩] ∧ lastFire ed s ≤ tw) ∧
        (ed = [] → s.armed = none → w = []) := by
  intro ed es hwv
  induction hwv with
  | nil =>
    intro b s _ _ _ _ _
    exact ⟨[], by simp [run_nil], Or.inl rfl, fun _ _ => rfl⟩
  | @edit t c ed es hwv ih =>
    intro b s hch hg hact harmid hfirst
    obtain ⟨hb, hch'⟩ := hch
    have hs' : step s (Ev.edit t c) = { s with
        notes := s.notes.map fun n =>
          if n.id == aid then { n with content := c, updated_at := t } else n
        draft := some ⟨aid, c, t⟩
        armed := some ⟨aid, c, t + 1000⟩
        timeoutSet := true } := by
      show updateNoteContent s t c = _
      rw [updateNoteContent, hact]
    have hact' : (step s (Ev.edit t c)).activeNoteId = some aid := by
      rw [hs']; exact hact
    have harmid' : ∀ d, (step s (Ev.edit t c)).armed = some d → d.noteId = aid := by
      intro d hd
      rw [hs'] at hd
      cases hd
      rfl
    have hfirst' : ∀ p d, ed.head? = some p →
        (step s (Ev.edit t c)).armed = some d → p.1 < d.fireAt := by
      intro p d hp hd
      rw [hs'] at hd
      cases hd
      cases ed with
      | nil => cases hp
      | cons q r =>
        obtain ⟨qt, qc⟩ := q
        cases hp
        exact hg.1
    obtain ⟨w, hlog, hbound, _⟩ :=
      ih (evTime (Ev.edit t c)) (step s (Ev.edit t c)) hch' (gaps_tail hg)
        hact' harmid' hfirst'
    refine ⟨w, ?_, ?_, fun h => by cases h⟩
    · rw [run_cons, hlog, hs']
    · rcases hbound with h | ⟨c', tw, hwq, hle⟩
      · exact Or.inl h
      · refine Or.inr ⟨c', tw, hwq, ?_⟩
        have hlf : lastFire ((t, c) :: ed) s = lastFire ed (step s (Ev.edit t c)) := by
          cases ed with
          | nil => simp [lastFire, hs']
          | cons q r =>
            cases hgl : (q :: r).getLast? with
            | none =>
              rw [List.getLast?_eq_none_iff] at hgl
              cases hgl
            | some gl => simp [lastFire, List.getLast?_cons_cons, hgl]
        rw [hlf]
        exact hle
  | @fire t ed es hwv ih =>
    intro b s hch hg hact harmid hfirst
    obtain ⟨hb, hch'⟩ := hch
    cases harm : s.armed with
    | none =>
      have hstep : step s (Ev.fireDebounce t) = s := by
        show debouncedSaveFire s t = s
        simp only [debouncedSaveFire, harm]
      rw [run_cons, hstep]
      obtain ⟨w, h1, h2, h3⟩ := ih t s hch' hg hact harmid hfirst
      exact ⟨w, h1, h2, fun hed _ => h3 hed harm⟩
    | some d =>
      cases ed with
      | cons p ed' =>
        obtain ⟨pt, pc⟩ := p
        have hpd : pt < d.fireAt := hfirst (pt, pc) d rfl harm
        have hmem : Ev.edit pt pc ∈ es := weave_first_edit hwv pt pc ed' rfl
        have hle : t ≤ pt := chrono_mono hch' _ hmem
        have hguard : ¬ d.fireAt ≤ t := by omega
        have hstep : step s (Ev.fireDebounce t) = s := by
          show debouncedSaveFire s t = s
          simp only [debouncedSaveFire, harm, if_neg hguard]
        rw [run_cons, hstep]
        obtain ⟨w, h1, h2, _⟩ := ih t s hch' hg hact harmid hfirst
        exact ⟨w, h1, h2, fun hcon => by simp at hcon⟩
      | nil =>
        by_cases hdue : d.fireAt ≤ t
        · have hstep : step s (Ev.fireDebounce t) = { s with
              armed := none
              saveStatus := .saving
              inFlight := s.inFlight ++ [⟨.debounced, d.noteId, d.content, t⟩]
              log := s.log ++ [⟨.debounced, d.noteId, d.content, t⟩] } := by
            show debouncedSaveFire s t = _
            simp only [debouncedSaveFire, harm, if_pos hdue]
          have hact' : (step s (Ev.fireDebounce t)).activeNoteId = some aid := by
            rw [hstep]; exact hact
          have harmid' : ∀ d', (step s (Ev.fireDebounce t)).armed = some d' →
              d'.noteId = aid := by
            intro d' hd'
            rw [hstep] at hd'
            cases hd'
          have hfirst' : ∀ p d', ([] : List (Nat × String)).head? = some p →
              (step s (Ev.fireDebounce t)).armed = some d' → p.1 < d'.fireAt := by
            intro p d' hp _
            cases hp
          obtain ⟨w, hlog, _, hnil⟩ :=
            ih t (step s (Ev.fireDebounce t)) hch' trivial hact' harmid' hfirst'
          have hw0 : w = [] := hnil rfl (by rw [hstep])
          subst hw0
          have hdid : d.noteId = aid := harmid d harm
          refine ⟨[⟨.debounced, aid, d.content, t⟩], ?_, ?_, fun _ hcon => by simp at hcon⟩
          · rw [run_cons, hlog, hstep]
            simp [hdid]
          · refine Or.inr ⟨d.content, t, rfl, ?_⟩
            simp [lastFire, harm, hdue]
        · have hstep : step s (Ev.fireDebounce t) = s := by
            show debouncedSaveFire s t = s
            simp only [debouncedSaveFire, harm, if_neg hdue]
          rw [run_cons, hstep]
          obtain ⟨w, h1, h2, h3⟩ := ih t s hch' trivial hact harmid hfirst
          refine ⟨w, h1, ?_, fun _ hcon => by simp at hcon⟩
          rcases h2 with h | ⟨c', tw, hwq, hle⟩
          · exact Or.inl h
          · exact Or.inr ⟨c', tw, hwq, hle⟩

/-- Claim C2: N edits within a 1000ms window produce exactly one debounced
remote write, dispatched no earlier than 1000ms after the last edit: firing
the coalesced timer at its deadline logs exactly one write; each edit re-arms
a fresh 1000ms timer for its own content; and over any chronological
interleaving of the edits with timer firings, at most one debounced write is
logged and never before the deadline. -/
theorem c2_debounce_coalescing
    (s0 : NotesState) (aid : String) (edits : List (Nat × String)) (es : List Ev)
    (tN : Nat) (cN : String)
    (hact : s0.activeNoteId = some aid)
    (harm : s0.armed = none)
    (hlog : s0.log = [])
    (hlast : edits.getLast? = some (tN, cN))
    (hg : Gaps edits)
    (hwv : Weave edits es)
    (hch : Chrono 0 es) :
    (run s0 (edits.map mkEdit ++ [Ev.fireDebounce (tN + 1000)])).log
        = [⟨.debounced, aid, cN, tN + 1000⟩] ∧
    (∀ pre t c post, edits = pre ++ (t, c) :: post →
        (run s0 ((pre ++ [(t, c)]).map mkEdit)).armed = some ⟨aid, c, t + 1000⟩) ∧
    ((run s0 es).log = [] ∨
        ∃ c tw, (run s0 es).log = [⟨.debounced, aid, c, tw⟩] ∧ tN + 1000 ≤ tw) := by
  refine ⟨?_, ?_, ?_⟩
  · obtain ⟨e1, e2, e3, e4, _, _, _, _, _, _⟩ := run_edits edits tN cN hlast s0 aid hact
    rw [run_append]
    show (debouncedSaveFire (run s0 (edits.map mkEdit)) (tN + 1000)).log = _
    simp [debouncedSaveFire, e2, e4, hlog]
  · intro pre t c post heq
    have hl : (pre ++ [(t, c)]).getLast? = some (t, c) := by simp
    exact (run_edits (pre ++ [(t, c)]) t c hl s0 aid hact).2.1
  · obtain ⟨w, hwlog, hbound, _⟩ := c2aux aid hwv 0 s0 hch hg hact
      (fun d hd => by rw [harm] at hd; cases hd)
      (fun p d hp hd => by rw [harm] at hd; cases hd)
    rw [hwlog, hlog]
    rcases hbound with h | ⟨c, tw, hwq, hle⟩
    · subst h; exact Or.inl rfl
    · right
      refine ⟨c, tw, by rw [hwq]; rfl, ?_⟩
      have hlf : lastFire edits s0 = tN + 1000 := by simp [lastFire, hlast]
      rw [hlf] at hle
      exact hle

/-- Witness for claim C2 at a concrete run: two edits 500ms apart, coalesced
into a single debounced write at 1500ms. -/
theorem c2_debounce_coalescing_witness :
    base.activeNoteId = some "a" ∧ base.armed = none ∧ base.log = [] ∧
    Gaps [((0 : Nat), "x1"), (500, "x2")] ∧
    (run base ([((0 : Nat), "x1"), (500, "x2")].map mkEdit
        ++ [Ev.fireDebounce (500 + 1000)])).log
      = [⟨.debounced, "a", "x2", 500 + 1000⟩] ∧
    ((run base [Ev.edit 0 "x1", Ev.edit 500 "x2"]).log = [] ∨
      ∃ c tw, (run base [Ev.edit 0 "x1", Ev.edit 500 "x2"]).log
          = [⟨.debounced, "a", c, tw⟩] ∧ 500 + 1000 ≤ tw) := by
  have h := c2_debounce_coalescing base "a" [(0, "x1"), (500, "x2")]
    [Ev.edit 0 "x1", Ev.edit 500 "x2"] 500 "x2" rfl rfl rfl (by decide)
    (by exact ⟨by omega, trivial⟩)
    (Weave.edit (Weave.edit Weave.nil))
    (by exact ⟨Nat.le_refl 0, Nat.zero_le 500, trivial⟩)
  exact ⟨rfl, rfl, rfl, ⟨by omega, trivial⟩, h.1, h.2.2⟩

/-- Counterexample to claim C3: after an edit of c1, its debounced write is
dispatched at 1000ms; a second edit at 1100ms puts c2 into the draft; when
the in-flight write of c1 then succeeds, the draft is removed even though it
held c2 and no remote write for c2 ever succeeded. -/
theorem c3_draft_counterexample :
    (run base [Ev.edit 0 "c1", Ev.fireDebounce 1000, Ev.edit 1100 "c2"]).draft
        = some ⟨"a", "c2", 1100⟩ ∧
    (⟨.debounced, "a", "c1", 1000⟩ : RemoteWrite)
        ∈ (run base [Ev.edit 0 "c1", Ev.fireDebounce 1000, Ev.edit 1100 "c2"]).inFlight ∧
    (completeWrite (run base [Ev.edit 0 "c1", Ev.fireDebounce 1000, Ev.edit 1100 "c2"])
        1150 ⟨.debounced, "a", "c1", 1000⟩ true).draft = none ∧
    "c1" ≠ "c2" := by decide

/-- Claim C3 (amended): on every edit with an active note the crash-recovery
draft is overwritten with the active id, the new content and the current
time; the draft is removed whenever a debounced write succeeds, even when the
draft holds newer content than the succeeded write persisted; it is removed
whenever a switchNote flush write completes, successfully or not; and a
failed debounced write leaves the draft unchanged. -/
theorem c3_draft_amended :
    (∀ s t c aid, s.activeNoteId = some aid →
        (updateNoteContent s t c).draft = some ⟨aid, c, t⟩) ∧
    (∀ s t w, w ∈ s.inFlight → w.sentAt ≤ t → w.kind = .debounced →
        (completeWrite s t w true).draft = none) ∧
    (∀ s t w, w ∈ s.inFlight → w.sentAt ≤ t → w.kind = .debounced →
        (completeWrite s t w false).draft = s.draft) ∧
    (∀ s t w ok, w ∈ s.inFlight → w.sentAt ≤ t → w.kind = .flush →
        (completeWrite s t w ok).draft = none) := by
  refine ⟨?_, ?_, ?_, ?_⟩
  · intro s t c aid h
    rw [updateNoteContent, h]
  · intro s t w hm hle hk
    simp [completeWrite, hm, hle, hk]
  · intro s t w hm hle hk
    simp [completeWrite, hm, hle, hk]
  · intro s t w ok hm hle hk
    cases ok <;> simp [completeWrite, hm, hle, hk]

/-- Witness for the amended claim C3 at concrete inputs. -/
theorem c3_draft_amended_witness :
    base.activeNoteId = some "a" ∧
    (⟨.debounced, "a", "c1", 1000⟩ : RemoteWrite) ∈ c3sF.inFlight ∧
    (⟨.flush, "a", "c0", 900⟩ : RemoteWrite) ∈ c3sF.inFlight ∧
    (updateNoteContent base 5 "z").draft = some ⟨"a", "z", 5⟩ ∧
    (completeWrite c3sF 1200 ⟨.debounced, "a", "c1", 1000⟩ true).draft = none ∧
    (completeWrite c3sF 1200 ⟨.debounced, "a", "c1", 1000⟩ false).draft = c3sF.draft ∧
    (completeWrite c3sF 1200 ⟨.flush, "a", "c0", 900⟩ true).draft = none :=
  ⟨rfl, by decide, by decide,
    c3_draft_amended.1 base 5 "z" "a" rfl,
    c3_draft_amended.2.1 c3sF 1200 ⟨.debounced, "a", "c1", 1000⟩
      (by decide) (by decide) rfl,
    c3_draft_amended.2.2.1 c3sF 1200 ⟨.debounced, "a", "c1", 1000⟩
      (by decide) (by decide) rfl,
    c3_draft_amended.2.2.2 c3sF 1200 ⟨.flush, "a", "c0", 900⟩ true
      (by decide) (by decide) rfl⟩

/-- Counterexample to claim C6: a first save cycle completes at 1100ms and
schedules its revert for 3100ms; a second cycle is dispatched at 2200ms and
is still saving when the stale 2000ms timer of the first cycle fires at
3100ms and overwrites the status of the newer cycle with idle. -/
theorem c6_stale_revert_counterexample :
    (run base [Ev.edit 0 "c1", Ev.fireDebounce 1000,
        Ev.complete 1100 ⟨.debounced, "a", "c1", 1000⟩ true,
        Ev.edit 1200 "c2", Ev.fireDebounce 2200]).saveStatus = .saving ∧
    (3100 : Nat) ∈ (run base [Ev.edit 0 "c1", Ev.fireDebounce 1000,
        Ev.complete 1100 ⟨.debounced, "a", "c1", 1000⟩ true,
        Ev.edit 1200 "c2", Ev.fireDebounce 2200]).revertTimers ∧
    (⟨.debounced, "a", "c2", 2200⟩ : RemoteWrite)
        ∈ (run base [Ev.edit 0 "c1", Ev.fireDebounce 1000,
            Ev.complete 1100 ⟨.debounced, "a", "c1", 1000⟩ true,
            Ev.edit 1200 "c2", Ev.fireDebounce 2200]).inFlight ∧
    (fireRevert (run base [Ev.edit 0 "c1", Ev.fireDebounce 1000,
        Ev.complete 1100 ⟨.debounced, "a", "c1", 1000⟩ true,
        Ev.edit 1200 "c2", Ev.fireDebounce 2200]) 3100).saveStatus = .idle := by
  decide

/-- Claim C6 (amended): after every successful debounced remote write the
save status is set to saved, the crash-recovery draft is cleared and a revert
timeout is scheduled 2000ms later; when any due revert timeout fires it sets
the status to idle unconditionally, so a stale timeout from an older cycle
overwrites the status of a newer cycle that is saving or saved. -/
theorem c6_save_cycle_amended :
    (∀ s t w, w ∈ s.inFlight → w.sentAt ≤ t → w.kind = .debounced →
        (completeWrite s t w true).saveStatus = .saved ∧
        (completeWrite s t w true).draft = none ∧
        (t + 2000) ∈ (completeWrite s t w true).revertTimers) ∧
    (∀ s t r, r ∈ s.revertTimers → r ≤ t → (fireRevert s t).saveStatus = .idle) := by
  refine ⟨?_, ?_⟩
  · intro s t w hm hle hk
    refine ⟨?_, ?_, ?_⟩ <;> simp [completeWrite, hm, hle, hk]
  · intro s t r hm hle
    simp only [fireRevert]
    split
    · rfl
    · next hnone =>
        rw [List.find?_eq_none] at hnone
        exact absurd hle (by simpa using hnone r hm)

/-- Witness for the amended claim C6 at concrete inputs. -/
theorem c6_save_cycle_amended_witness :
    (⟨.debounced, "a", "c1", 1000⟩ : RemoteWrite) ∈ c6sW.inFlight ∧
    (900 : Nat) ∈ c6sW.revertTimers ∧
    ((completeWrite c6sW 1100 ⟨.debounced, "a", "c1", 1000⟩ true).saveStatus = .saved ∧
     (completeWrite c6sW 1100 ⟨.debounced, "a", "c1", 1000⟩ true).draft = none ∧
     (1100 + 2000 : Nat) ∈ (completeWrite c6sW 1100 ⟨.debounced, "a", "c1", 1000⟩ true).revertTimers) ∧
    (fireRevert c6sW 950).saveStatus = .idle :=
  ⟨by decide, by decide,
    c6_save_cycle_amended.1 c6sW 1100 ⟨.debounced, "a", "c1", 1000⟩
      (by decide) (by decide) rfl,
    c6_save_cycle_amended.2 c6sW 950 900 (by decide) (by decide)⟩

/-- Claim C7: when a debounced remote write fails, the only effect is the
save status reverting to idle: nothing new is dispatched or logged (no
retry), the in-memory notes keep the optimistically applied edit, the
crash-recovery draft is not cleared, and timers, remote rows and the active
id are untouched. -/
theorem c7_failed_write (s : NotesState) (t : Nat) (w : RemoteWrite)
    (hk : w.kind = .debounced) (hm : w ∈ s.inFlight) (hle : w.sentAt ≤ t) :
    (completeWrite s t w false).saveStatus = .idle ∧
    (completeWrite s t w false).notes = s.notes ∧
    (completeWrite s t w false).draft = s.draft ∧
    (completeWrite s t w false).armed = s.armed ∧
    (completeWrite s t w false).timeoutSet = s.timeoutSet ∧
    (completeWrite s t w false).log = s.log ∧
    (completeWrite s t w false).remote = s.remote ∧
    (completeWrite s t w false).revertTimers = s.revertTimers ∧
    (completeWrite s t w false).activeNoteId = s.activeNoteId ∧
    (completeWrite s t w false).inFlight = s.inFlight.erase w := by
  refine ⟨?_, ?_, ?_, ?_, ?_, ?_, ?_, ?_, ?_, ?_⟩ <;>
    simp [completeWrite, hm, hle, hk]

/-- Witness for claim C7 at a concrete failed write. -/
theorem c7_failed_write_witness :
    (⟨.debounced, "a", "c1", 1000⟩ : RemoteWrite) ∈ c6sW.inFlight ∧
    ((completeWrite c6sW 1100 ⟨.debounced, "a", "c1", 1000⟩ false).saveStatus = .idle ∧
     (completeWrite c6sW 1100 ⟨.debounced, "a", "c1", 1000⟩ false).notes = c6sW.notes ∧
     (completeWrite c6sW 1100 ⟨.debounced, "a", "c1", 1000⟩ false).draft = c6sW.draft ∧
     (completeWrite c6sW 1100 ⟨.debounced, "a", "c1", 1000⟩ false).log = c6sW.log) :=
  have h := c7_failed_write c6sW 1100 ⟨.debounced, "a", "c1", 1000⟩
    rfl (by decide) (by decide)
  ⟨by decide, h.1, h.2.1, h.2.2.1, h.2.2.2.2.2.1⟩

/-- Claim C8: successful remote delete removes the note from the in-memory
collection and from the remote rows; when the deleted note was active, the
first remaining note (or none) becomes active, otherwise the active id is
unchanged; successful create prepends the new note and makes it active. -/
theorem c8_delete_create (s : NotesState) (id : String) (n : Note) :
    ((deleteNote s id true).notes = s.notes.filter (fun m => ¬(m.id == id)) ∧
     (deleteNote s id true).remote = s.remote.filter (fun m => ¬(m.id == id)) ∧
     (s.activeNoteId = some id →
        (deleteNote s id true).activeNoteId
          = (s.notes.filter (fun m => ¬(m.id == id))).head?.map Note.id) ∧
     (s.activeNoteId ≠ some id →
        (deleteNote s id true).activeNoteId = s.activeNoteId)) ∧
    ((createNote s n true).notes = n :: s.notes ∧
     (createNote s n true).activeNoteId = some n.id ∧
     (createNote s n true).remote = n :: s.remote) := by
  refine ⟨⟨?_, ?_, ?_, ?_⟩, ?_, ?_, ?_⟩
  · simp [deleteNote]
  · simp [deleteNote]
  · intro h; simp [deleteNote, h]
  · intro h; simp [deleteNote, h]
  · simp [createNote]
  · simp [createNote]
  · simp [createNote]

/-- Witness for claim C8: deleting the active note a promotes b; creating a
note prepends it and makes it active. -/
theorem c8_delete_create_witness :
    c8sW.activeNoteId = some "a" ∧
    ((deleteNote c8sW "a" true).notes
        = c8sW.notes.filter (fun m => ¬(m.id == "a")) ∧
     (deleteNote c8sW "a" true).remote
        = c8sW.remote.filter (fun m => ¬(m.id == "a")) ∧
     (c8sW.activeNoteId = some "a" →
        (deleteNote c8sW "a" true).activeNoteId
          = (c8sW.notes.filter (fun m => ¬(m.id == "a"))).head?.map Note.id) ∧
     (c8sW.activeNoteId ≠ some "a" →
        (deleteNote c8sW "a" true).activeNoteId = c8sW.activeNoteId)) ∧
    ((createNote c8sW noteB true).notes = noteB :: c8sW.notes ∧
     (createNote c8sW noteB true).activeNoteId = some noteB.id ∧
     (createNote c8sW noteB true).remote = noteB :: c8sW.remote) :=
  ⟨rfl, (c8_delete_create c8sW "a" noteB).1, (c8_delete_create c8sW "a" noteB).2⟩

/-- Claim C10: with no active note, updateNoteContent is a complete no-op;
with an active note, only the matching note's content and updated_at change
(its id, title and created_at survive inside the record update), every other
note is unchanged at its position, the length and active id are preserved,
and the draft is overwritten. -/
theorem c10_update_frame (s : NotesState) (t : Nat) (c : String) :
    (s.activeNoteId = none → updateNoteContent s t c = s) ∧
    (∀ aid, s.activeNoteId = some aid →
      (updateNoteContent s t c).notes.length = s.notes.length ∧
      (∀ (i : Nat) (m : Note), s.notes[i]? = some m →
        (m.id ≠ aid → (updateNoteContent s t c).notes[i]? = some m) ∧
        (m.id = aid → (updateNoteContent s t c).notes[i]?
            = some { m with content := c, updated_at := t })) ∧
      (updateNoteContent s t c).activeNoteId = s.activeNoteId ∧
      (updateNoteContent s t c).draft = some ⟨aid, c, t⟩) := by
  constructor
  · intro h
    rw [updateNoteContent, h]
  · intro aid h
    have hu : updateNoteContent s t c = { s with
        notes := s.notes.map fun n =>
          if n.id == aid then { n with content := c, updated_at := t } else n
        draft := some ⟨aid, c, t⟩
        armed := some ⟨aid, c, t + 1000⟩
        timeoutSet := true } := by
      rw [updateNoteContent, h]
    refine ⟨by rw [hu]; simp, ?_, by rw [hu], by rw [hu]⟩
    intro i m hm
    constructor
    · intro hne
      rw [hu]
      show (s.notes.map _)[i]? = some m
      rw [List.getElem?_map, hm]
      simp [hne]
    · intro heq
      rw [hu]
      show (s.notes.map _)[i]? = some _
      rw [List.getElem?_map, hm]
      simp [heq]

/-- Witness for claim C10 at concrete inputs: the inactive call is a no-op
and the active call rewrites exactly the matching note. -/
theorem c10_update_frame_witness :
    c10sNone.activeNoteId = none ∧
    updateNoteContent c10sNone 7 "z" = c10sNone ∧
    c8sW.activeNoteId = some "a" ∧
    ((updateNoteContent c8sW 7 "z").notes.length = c8sW.notes.length ∧
     (noteB.id ≠ "a" → (updateNoteContent c8sW 7 "z").notes[1]? = some noteB) ∧
     (noteA.id = "a" → (updateNoteContent c8sW 7 "z").notes[0]?
        = some { noteA with content := "z", updated_at := 7 }) ∧
     (updateNoteContent c8sW 7 "z").draft = some ⟨"a", "z", 7⟩) :=
  have h := c10_update_frame c8sW 7 "z"
  have h2 := h.2 "a" rfl
  ⟨rfl, (c10_update_frame c10sNone 7 "z").1 rfl, rfl,
    h2.1,
    ((h2.2.1 1 noteB (by decide)).1),
    ((h2.2.1 0 noteA (by decide)).2),
    h2.2.2.2⟩

/-- Claim C5: with cursor text Hello /head in a paragraph block and an empty
selection, the menu opens with query head, highlighted index 0 and replace
range 7..12; the candidates are exactly Heading 1, Heading 2, Heading 3 in
declaration order; and Enter with no prior arrow navigation deletes the
matched range, turns the block into a level-1 heading and closes the menu. -/
theorem c5_slash_head :
    detectSlashMenu ⟨"paragraph", "Hello /head".data, 11, true, 12⟩
        = some ⟨"head".data, 0, 7, 12⟩ ∧
    (getFilteredCommands "head".data).map SlashMenuItem.label
        = ["Heading 1", "Heading 2", "Heading 3"] ∧
    handleEnterKey ⟨"head".data, 0, 7, 12⟩ ⟨.paragraph, "Hello /head".data⟩
        = (none, ⟨.heading 1, "Hello ".data⟩) := by
  decide

/-- Claim C9: for a shown bubble (non-empty selection outside code blocks),
the link button removes an existing link mark; with no existing link it
applies a link mark with exactly the prompted non-empty URL; and with a
cancelled or empty prompt it changes nothing and raises no error.  Other
marks are never touched. -/
theorem c9_link_toggle (sel : SelectionState) (promptResult : Option String)
    (_hne : sel.nonEmpty = true) (_hcb : sel.inCodeBlock = false) :
    (sel.linkMark.isSome = true →
        linkButtonClick sel promptResult = { sel with linkMark := none }) ∧
    (sel.linkMark = none → ∀ url, promptResult = some url → url ≠ "" →
        linkButtonClick sel promptResult = { sel with linkMark := some url }) ∧
    (sel.linkMark = none → (promptResult = none ∨ promptResult = some "") →
        linkButtonClick sel promptResult = sel) := by
  refine ⟨?_, ?_, ?_⟩
  · intro h
    simp [linkButtonClick, h]
  · intro h url hp hu
    subst hp
    simp [linkButtonClick, h, hu]
  · intro h hp
    rcases hp with hp | hp <;> subst hp <;> simp [linkButtonClick, h]

/-- Witness for claim C9 at concrete selections and prompt results. -/
theorem c9_link_toggle_witness :
    (selLinked.nonEmpty = true ∧ selLinked.inCodeBlock = false ∧
      linkButtonClick selLinked (some "v") = { selLinked with linkMark := none }) ∧
    (selPlain.nonEmpty = true ∧ selPlain.inCodeBlock = false ∧
      linkButtonClick selPlain (some "v") = { selPlain with linkMark := some "v" } ∧
      linkButtonClick selPlain none = selPlain ∧
      linkButtonClick selPlain (some "") = selPlain) :=
  ⟨⟨rfl, rfl, (c9_link_toggle selLinked (some "v") rfl rfl).1 rfl⟩,
   ⟨rfl, rfl,
    (c9_link_toggle selPlain (some "v") rfl rfl).2.1 rfl "v" rfl (by decide),
    (c9_link_toggle selPlain none rfl rfl).2.2 rfl (Or.inl rfl),
    (c9_link_toggle selPlain (some "") rfl rfl).2.2 rfl (Or.inr rfl)⟩⟩

/-- A stripped line is the pattern followed by the rest. -/
theorem stripPre_some : ∀ (p l r : Line), stripPre p l = some r → l = p ++ r := by
  intro p
  induction p with
  | nil =>
    intro l r h
    simp [stripPre] at h
    simp [h]
  | cons a as ih =>
    intro l r h
    cases l with
    | nil => simp [stripPre] at h
    | cons b bs =>
      rw [stripPre] at h
      by_cases hab : a = b
      · rw [if_pos hab] at h
        rw [List.cons_append, ← hab, ih bs r h]
      · rw [if_neg hab] at h
        cases h

/-- Stripping a pattern from itself plus a rest yields the rest. -/
theorem stripPre_append : ∀ (p r : Line), stripPre p (p ++ r) = some r := by
  intro p r
  induction p with
  | nil => rfl
  | cons a as ih => simp [stripPre, ih]

/-- The rest after a code-block body is never longer than the input. -/
theorem takeToFence_len : ∀ ls : List Line, (takeToFence ls).2.length ≤ ls.length := by
  intro ls
  induction ls with
  | nil => simp [takeToFence]
  | cons l ls ih =>
    rw [takeToFence]
    split
    · simp
    · simpa using Nat.le_succ_of_le ih

/-- No collected body line is a closing fence. -/
theorem takeToFence_no_fence : ∀ ls : List Line, ∀ l ∈ (takeToFence ls).1,
    l ≠ fenceLine := by
  intro ls
  induction ls with
  | nil => intro l h; simp [takeToFence] at h
  | cons x xs ih =>
    intro l h
    rw [takeToFence] at h
    by_cases hx : x = fenceLine
    · rw [if_pos hx] at h
      simp at h
    · rw [if_neg hx] at h
      rcases List.mem_cons.mp h with h | h
      · subst h; exact hx
      · exact ih l h

/-- Collecting from a fence-free body followed by a closing fence returns
exactly that body and the rest. -/
theorem takeToFence_append : ∀ (body rest : List Line),
    (∀ l ∈ body, l ≠ fenceLine) →
    takeToFence (body ++ fenceLine :: rest) = (body, rest) := by
  intro body
  induction body with
  | nil => intro rest _; simp [takeToFence]
  | cons b bs ih =>
    intro rest hb
    have hbne : b ≠ fenceLine := hb b (List.mem_cons_self b bs)
    rw [List.cons_append, takeToFence, if_neg hbne,
      ih rest (fun l hl => hb l (List.mem_cons_of_mem b hl))]

/-- Serializing the classification of any single line reproduces that line
verbatim. -/
theorem serializeBlock_parseLine (l : Line) : serializeBlock (parseLine l) = [l] := by
  unfold parseLine
  split
  · next r h =>
    have hl := stripPre_some hashSp l r h
    subst hl
    simp [serializeBlock, hashSp]
  · split
    · next r h =>
      have hl := stripPre_some hash2Sp l r h
      subst hl
      simp [serializeBlock]
    · split
      · next r h =>
        have hl := stripPre_some hash3Sp l r h
        subst hl
        simp [serializeBlock]
      · split
        · next r h =>
          have hl := stripPre_some taskOpen l r h
          subst hl
          simp [serializeBlock]
        · split
          · next r h =>
            have hl := stripPre_some taskDone l r h
            subst hl
            simp [serializeBlock]
          · split
            · next r h =>
              have hl := stripPre_some dashSp l r h
              subst hl
              simp [serializeBlock]
            · split
              · next h =>
                subst h
                simp [serializeBlock]
              · split
                · next r h =>
                  have hl := stripPre_some quoteSp l r h
                  subst hl
                  simp [serializeBlock]
                · split
                  · next d ds r h1 h2 =>
                    have hl := List.takeWhile_append_dropWhile (p := Char.isDigit) (l := l)
                    rw [h1, h2] at hl
                    simp [serializeBlock, dotSp]
                    exact hl
                  · next =>
                    simp [serializeBlock]

/-- Reloading the serialization of a loaded document reproduces the loaded
tree, by strong induction on the number of lines. -/
theorem loadBlocks_stable : ∀ (n : Nat) (ls : List Line), ls.length ≤ n →
    loadBlocks (serializeBlocks (loadBlocks ls)) = loadBlocks ls := by
  intro n
  induction n with
  | zero =>
    intro ls h
    have hnil : ls = [] := List.length_eq_zero.mp (Nat.le_zero.mp h)
    subst hnil
    simp [loadBlocks, serializeBlocks]
  | succ n ih =>
    intro ls h
    cases ls with
    | nil => simp [loadBlocks, serializeBlocks]
    | cons l ls' =>
      have hlen : ls'.length ≤ n := by
        simp only [List.length_cons] at h
        omega
      cases hf : stripPre fenceLine l with
      | none =>
        have h1 : loadBlocks (l :: ls') = parseLine l :: loadBlocks ls' := by
          simp only [loadBlocks, hf]
        have h2 : serializeBlocks (parseLine l :: loadBlocks ls')
            = l :: serializeBlocks (loadBlocks ls') := by
          simp [serializeBlocks, serializeBlock_parseLine]
        have h3 : loadBlocks (l :: serializeBlocks (loadBlocks ls'))
            = parseLine l :: loadBlocks (serializeBlocks (loadBlocks ls')) := by
          simp only [loadBlocks, hf]
        rw [h1, h2, h3, ih ls' hlen]
      | some lang =>
        have hlen2 : (takeToFence ls').2.length ≤ n :=
          le_trans (takeToFence_len ls') hlen
        have h1 : loadBlocks (l :: ls')
            = Block.codeBlock lang (takeToFence ls').1
                :: loadBlocks (takeToFence ls').2 := by
          simp only [loadBlocks, hf]
        have h2 : serializeBlocks (Block.codeBlock lang (takeToFence ls').1
              :: loadBlocks (takeToFence ls').2)
            = (fenceLine ++ lang)
                :: ((takeToFence ls').1
                  ++ fenceLine :: serializeBlocks (loadBlocks (takeToFence ls').2)) := by
          simp [serializeBlocks, serializeBlock]
        have h3 : loadBlocks ((fenceLine ++ lang)
              :: ((takeToFence ls').1
                ++ fenceLine :: serializeBlocks (loadBlocks (takeToFence ls').2)))
            = Block.codeBlock lang (takeToFence ls').1
                :: loadBlocks (serializeBlocks (loadBlocks (takeToFence ls').2)) := by
          simp only [loadBlocks, stripPre_append]
          rw [takeToFence_append _ _ (takeToFence_no_fence ls')]
        rw [h1, h2, h3, ih _ hlen2]

/-- Claim C4: for all content producible by the editor the load-serialize
round trip is stable: serializing a reload of serialized content reproduces
it, for arbitrary input lines. -/
theorem c4_roundtrip_stable (ls : List Line) :
    serializeBlocks (loadBlocks (serializeBlocks (loadBlocks ls)))
      = serializeBlocks (loadBlocks ls) :=
  congrArg serializeBlocks (loadBlocks_stable ls.length ls (le_refl _))
